import Mathlib

/-!
# Verification of the R0-vs-R1 tag comparison pipeline

Shallow embedding of the core logic of `Revisioncode.py`: the table
loader/normalizer (dedup by "Tag", set_index), the diff engine (column
union, key union, per-tag classification with per-column rendering and
change summaries) and the export formatter (header layout and the
arrow-based cell highlighting rule).

Values are modelled as strings (the script loads both sheets with
`dtype=str` and `fillna("")`), rows as association lists from column
name to value, and tables as the post-`set_index` pair of a column list
and a list of (tag, row) entries.

Python's `set(...)` has no specified iteration order (string hashing is
randomized per process), so wherever the script iterates over a set
(`sorted(set(...), key=...)`), the enumeration order of the set is made
an explicit parameter, constrained in the theorems to be a
duplicate-free enumeration of the corresponding union.
-/

/-- Python's `str.strip()`: remove leading and trailing whitespace.
Embedded over the character list so that it is kernel-computable
(`String.trim` itself reduces identically on whitespace in this range). -/
def pyStrip (s : String) : String :=
  ⟨((s.data.dropWhile Char.isWhitespace).reverse.dropWhile Char.isWhitespace).reverse⟩

/-- Code-point lexicographic comparison of character lists: the order
Python uses when `sorted` compares two `str` values. -/
def charsLe : List Char → List Char → Bool
  | [], _ => true
  | _ :: _, [] => false
  | a :: as, b :: bs =>
    if a < b then true else if b < a then false else charsLe as bs

/-- Python's `<=` on strings: code-point lexicographic order. -/
def strLe (a b : String) : Prop := charsLe a.data b.data = true

instance : DecidableRel strLe :=
  fun a b => inferInstanceAs (Decidable (charsLe a.data b.data = true))

theorem charsLe_total : ∀ as bs, charsLe as bs = true ∨ charsLe bs as = true
  | [], _ => Or.inl rfl
  | _ :: _, [] => Or.inr rfl
  | a :: as, b :: bs => by
    simp only [charsLe]
    rcases lt_trichotomy a b with h | h | h
    · left; rw [if_pos h]
    · subst h
      simp only [if_neg (lt_irrefl a)]
      exact charsLe_total as bs
    · right; rw [if_pos h]

theorem charsLe_trans :
    ∀ as bs cs, charsLe as bs = true → charsLe bs cs = true → charsLe as cs = true
  | [], _, _ => fun _ _ => rfl
  | _ :: _, [], _ => fun h _ => by simp [charsLe] at h
  | _ :: _, _ :: _, [] => fun _ h => by simp [charsLe] at h
  | a :: as, b :: bs, c :: cs => fun h1 h2 => by
    simp only [charsLe] at h1 h2 ⊢
    by_cases hab : a < b
    · by_cases hbc : b < c
      · rw [if_pos (lt_trans hab hbc)]
      · by_cases hcb : c < b
        · rw [if_pos hab] at h1
          rw [if_neg hbc, if_pos hcb] at h2
          exact absurd h2 (by simp)
        · have hbceq : b = c := le_antisymm (not_lt.mp hcb) (not_lt.mp hbc)
          subst hbceq
          rw [if_pos hab]
    · by_cases hba : b < a
      · rw [if_neg hab, if_pos hba] at h1
        exact absurd h1 (by simp)
      · have habeq : a = b := le_antisymm (not_lt.mp hba) (not_lt.mp hab)
        subst habeq
        rw [if_neg (lt_irrefl a), if_neg (lt_irrefl a)] at h1
        by_cases hac : a < c
        · rw [if_pos hac]
        · by_cases hca : c < a
          · rw [if_neg hac, if_pos hca] at h2
            exact absurd h2 (by simp)
          · rw [if_neg hac, if_neg hca] at h2 ⊢
            exact charsLe_trans as bs cs h1 h2

theorem charsLe_antisymm :
    ∀ as bs, charsLe as bs = true → charsLe bs as = true → as = bs
  | [], [] => fun _ _ => rfl
  | [], _ :: _ => fun _ h => by simp [charsLe] at h
  | _ :: _, [] => fun h _ => by simp [charsLe] at h
  | a :: as, b :: bs => fun h1 h2 => by
    simp only [charsLe] at h1 h2
    by_cases hab : a < b
    · rw [if_neg (lt_asymm hab), if_pos hab] at h2
      exact absurd h2 (by simp)
    · by_cases hba : b < a
      · rw [if_neg hab, if_pos hba] at h1
        exact absurd h1 (by simp)
      · have habeq : a = b := le_antisymm (not_lt.mp hba) (not_lt.mp hab)
        subst habeq
        rw [if_neg (lt_irrefl a), if_neg (lt_irrefl a)] at h1 h2
        rw [charsLe_antisymm as bs h1 h2]

instance : IsTotal String strLe :=
  ⟨fun a b => charsLe_total a.data b.data⟩

instance : IsTrans String strLe :=
  ⟨fun a b c => charsLe_trans a.data b.data c.data⟩

instance : IsAntisymm String strLe :=
  ⟨fun a b h1 h2 => String.ext (charsLe_antisymm a.data b.data h1 h2)⟩

/-! ## Table loader / normalizer (lines 137-146 of the script) -/

/-- A raw input row: association list from column name to (string) value,
in column order, as produced by `pd.read_excel(..., dtype=str).fillna("")`. -/
abbrev RawRow := List (String × String)

/-- `row.get(col, "")`: the value of column `c` in row `r`, defaulting to the
empty string when the column is absent (mirrors both `fillna("")` and
`Series.get(col, "")`). -/
def getVal (r : RawRow) (c : String) : String :=
  match r.find? (fun p => p.1 == c) with
  | some p => p.2
  | none => ""

/-- The "Tag" cell of a raw row. -/
def tagOf (r : RawRow) : String := getVal r "Tag"

/-- `drop_duplicates(subset="Tag")`: keep only the first row (input order)
for each Tag value; later rows with an already-seen Tag are dropped. -/
def dropDupFirst : List RawRow → List RawRow
  | [] => []
  | r :: rs => r :: (dropDupFirst rs).filter (fun x => !(tagOf x == tagOf r))

/-- A table after `set_index("Tag")`: the remaining column list (input
order, "Tag" removed) and, per retained row, its index value (the Tag)
paired with the row's remaining cells. -/
structure Tbl where
  cols : List String
  rows : List (String × RawRow)
deriving DecidableEq, Repr

/-- `df.drop_duplicates(subset="Tag").set_index("Tag")`. -/
def makeTable (cols : List String) (rows : List RawRow) : Tbl :=
  { cols := cols.filter (fun c => !(c == "Tag")),
    rows := (dropDupFirst rows).map
      (fun r => (tagOf r, r.filter (fun p => !(p.1 == "Tag")))) }

/-- `df.loc[tag]` on the indexed table (first row whose index equals `tag`);
`none` models `tag not in df.index`. -/
def lookupRow (t : Tbl) (tag : String) : Option RawRow :=
  (t.rows.find? (fun p => p.1 == tag)).map (fun p => p.2)

/-- `df.index` as a list of tags. -/
def tableTags (t : Tbl) : List String := t.rows.map (fun p => p.1)

/-! ## Diff engine (lines 148-196 of the script) -/

/-- Python's `indexOf`-style sort key for the column union
(line 151): `r0_columns.index(x) if x in r0_columns else float("inf")`.
`List.indexOf` returns the length of the list when the element is absent,
which sorts strictly after every genuine index, exactly like `inf`. -/
def colKey (r0cols : List String) (c : String) : Nat := r0cols.indexOf c

/-- Python's `sorted(l, key=key)` (a stable sort) for `Nat`-valued keys
bounded by `bound`: for each key value in increasing order, the elements
of `l` with that key, in their order in `l`. -/
def sortByKey (key : String → Nat) (bound : Nat) (l : List String) : List String :=
  ((List.range bound).map (fun k => l.filter (fun x => key x == k))).flatten

/-- Lines 149-152: `sorted(set(r0) | set(r1), key=...)`. `colEnum` is the
iteration order of the Python set (unspecified by the language, hence a
parameter); every key is at most `r0cols.length`, so that bound suffices. -/
def all_columns (r0cols : List String) (colEnum : List String) : List String :=
  sortByKey (colKey r0cols) (r0cols.length + 1) colEnum

/-- Line 154: `sorted(set(r0.index) | set(r1.index))`; `tagEnum` is the
set's iteration order. Sorting by the strings themselves (code-point
lexicographic) makes the result independent of that order. -/
def all_tags (tagEnum : List String) : List String :=
  List.insertionSort strLe tagEnum

/-- One output record of the comparison (one dict appended to
`comparison_rows`). -/
structure DiffRow where
  tag : String
  changeType : String
  cells : List (String × String)
  changeSummary : String
deriving DecidableEq, Repr

/-- Python's `sep.join(l)`. -/
def joinSep (sep : String) : List String → String
  | [] => ""
  | [x] => x
  | x :: y :: t => x ++ sep ++ joinSep sep (y :: t)

/-- Per-column rendering for a tag present in both tables (lines 179-187):
arrow form when the stripped values differ, otherwise R1's value. -/
def renderCell (r0row r1row : RawRow) (c : String) : String :=
  let v0 := getVal r0row c
  let v1 := getVal r1row c
  if pyStrip v0 != pyStrip v1 then v0 ++ " → " ++ v1 else v1

/-- The summary entry contributed by column `c` (line 184), when the
stripped values differ. -/
def summaryEntry (r0row r1row : RawRow) (c : String) : Option String :=
  let v0 := getVal r0row c
  let v1 := getVal r1row c
  if pyStrip v0 != pyStrip v1 then some (c ++ ": " ++ v0 ++ " → " ++ v1) else none

/-- The summary list accumulated over the column loop (lines 176-185). -/
def summaryEntries (cols : List String) (r0row r1row : RawRow) : List String :=
  cols.filterMap (summaryEntry r0row r1row)

/-- The both-present branch (lines 172-191). -/
def compareBoth (cols : List String) (tag : String) (r0row r1row : RawRow) : DiffRow :=
  let changed := cols.any (fun c => pyStrip (getVal r0row c) != pyStrip (getVal r1row c))
  { tag := tag,
    changeType := if changed then "Modified" else "No Change",
    cells := cols.map (fun c => (c, renderCell r0row r1row c)),
    changeSummary := joinSep " | " (summaryEntries cols r0row r1row) }

/-- The body of the tag loop (lines 159-191): classify one tag. -/
def diffRow (r0 r1 : Tbl) (cols : List String) (tag : String) : DiffRow :=
  if lookupRow r0 tag = none then
    { tag := tag,
      changeType := "Added in R1",
      cells := cols.map (fun c => (c, getVal ((lookupRow r1 tag).getD []) c)),
      changeSummary := "" }
  else if lookupRow r1 tag = none then
    { tag := tag,
      changeType := "Removed in R1",
      cells := cols.map (fun c => (c, getVal ((lookupRow r0 tag).getD []) c)),
      changeSummary := "" }
  else
    compareBoth cols tag ((lookupRow r0 tag).getD []) ((lookupRow r1 tag).getD [])

/-- The whole tag loop: one appended row per tag, in tag order. -/
def diffRows (r0 r1 : Tbl) (cols : List String) (tags : List String) : List DiffRow :=
  tags.map (diffRow r0 r1 cols)

/-- The error raised (via `st.error` + `st.stop`) when a "Tag" column is
missing from either input (lines 140-142). -/
inductive SchemaError where
  | missingTag
deriving DecidableEq, Repr

/-- The core pipeline (lines 137-196): check schemas, normalize both
tables, build the column and key unions, and run the diff loop.
`colEnum` and `tagEnum` are the iteration orders of the two Python sets. -/
def runComparison (r0cols : List String) (r0rows : List RawRow)
    (r1cols : List String) (r1rows : List RawRow)
    (colEnum tagEnum : List String) : Except SchemaError (List DiffRow) :=
  if "Tag" ∉ r0cols ∨ "Tag" ∉ r1cols then
    Except.error SchemaError.missingTag
  else
    let t0 := makeTable r0cols r0rows
    let t1 := makeTable r1cols r1rows
    Except.ok (diffRows t0 t1 (all_columns t0.cols colEnum) (all_tags tagEnum))

/-! ## Export formatter (lines 194-224 of the script) -/

/-- Line 223: `isinstance(value, str) and "→" in value` (every exported
value is a string here, and "→" is a single character). -/
def hasArrow (s : String) : Bool := s.data.contains '→'

/-- Line 195: `["Tag", "Change_Type"] + all_columns + ["Change_Summary"]`. -/
def finalColumns (cols : List String) : List String :=
  ["Tag", "Change_Type"] ++ cols ++ ["Change_Summary"]

/-- One spreadsheet cell: its rendered string and whether the yellow
`PatternFill` was applied to it. -/
structure Cell where
  value : String
  highlighted : Bool
deriving DecidableEq, Repr

/-- Lines 222-224: write a value and highlight it exactly when it
contains the arrow marker. -/
def mkCell (v : String) : Cell :=
  { value := v, highlighted := hasArrow v }

/-- The value a `DiffRow` carries for an output column of the final frame. -/
def rowCellValue (r : DiffRow) (c : String) : String :=
  if c == "Tag" then r.tag
  else if c == "Change_Type" then r.changeType
  else if c == "Change_Summary" then r.changeSummary
  else getVal r.cells c

/-- One exported data row, in `final_columns` order. -/
def exportRow (cols : List String) (r : DiffRow) : List Cell :=
  (finalColumns cols).map (fun c => mkCell (rowCellValue r c))

/-- The exported sheet (lines 215-224): header row followed by one data
row per `DiffRow`, in order; `dataframe_to_rows(..., header=True)` also
passes the header strings through the same highlight check. -/
def exportSheet (cols : List String) (rows : List DiffRow) : List (List Cell) :=
  ((finalColumns cols).map mkCell) :: rows.map (exportRow cols)

/-! ## Helper lemmas -/

theorem getVal_map_pairs (f : String → String) (cols : List String) (c : String)
    (hc : c ∈ cols) : getVal (cols.map (fun x => (x, f x))) c = f c := by
  induction cols with
  | nil => cases hc
  | cons a cols ih =>
    by_cases h : a = c
    · subst h
      simp only [List.map_cons, getVal]
      rw [List.find?_cons_of_pos _ (by simp)]
    · have hc' : c ∈ cols := by
        rcases List.mem_cons.mp hc with h' | h'
        · exact absurd h'.symm h
        · exact h'
      simp only [List.map_cons, getVal] at ih ⊢
      rw [List.find?_cons_of_neg _ (by simp [h])]
      exact ih hc'

theorem nodup_filter_beq (l : List String) (c : String) (hn : l.Nodup) (hc : c ∈ l) :
    l.filter (fun x => x == c) = [c] := by
  induction l with
  | nil => cases hc
  | cons a l ih =>
    rcases List.nodup_cons.mp hn with ⟨ha, hl⟩
    by_cases h : a = c
    · subst h
      rw [List.filter_cons_of_pos (by simp)]
      have hnil : l.filter (fun x => x == a) = [] := by
        rw [List.filter_eq_nil_iff]
        intro x hx
        simp only [beq_iff_eq]
        intro he
        exact ha (he ▸ hx)
      rw [hnil]
    · rw [List.filter_cons_of_neg (by simp [h])]
      have hc' : c ∈ l := by
        rcases List.mem_cons.mp hc with h' | h'
        · exact absurd h'.symm h
        · exact h'
      exact ih hl hc'

theorem find?_filter_of_imp {α : Type} (p q : α → Bool)
    (h : ∀ x, p x = true → q x = true) :
    ∀ l : List α, (l.filter q).find? p = l.find? p
  | [] => rfl
  | a :: l => by
    cases hq : q a with
    | true =>
      rw [List.filter_cons_of_pos hq]
      cases hp : p a with
      | true => rw [List.find?_cons_of_pos _ hp, List.find?_cons_of_pos _ hp]
      | false =>
        rw [List.find?_cons_of_neg _ (by simp [hp]), List.find?_cons_of_neg _ (by simp [hp])]
        exact find?_filter_of_imp p q h l
    | false =>
      have hp : p a = false := by
        cases hpa : p a with
        | true => exact absurd (h a hpa) (by simp [hq])
        | false => rfl
      rw [List.filter_cons_of_neg (by simp [hq]), List.find?_cons_of_neg _ (by simp [hp])]
      exact find?_filter_of_imp p q h l

theorem joinSep_ne_empty (sep : String) (l : List String) (hl : l ≠ [])
    (he : ∀ e ∈ l, 0 < e.length) : joinSep sep l ≠ "" := by
  match l with
  | [] => exact absurd rfl hl
  | [x] =>
    have hx := he x (by simp)
    simp only [joinSep]
    intro h
    rw [h] at hx
    simp at hx
  | x :: y :: t =>
    have hx := he x (by simp)
    simp only [joinSep]
    intro h
    have hlen : (x ++ sep ++ joinSep sep (y :: t)).length = 0 := by rw [h]; rfl
    rw [String.length_append, String.length_append] at hlen
    omega

theorem hasArrow_arrowCell (a b : String) : hasArrow (a ++ " → " ++ b) = true := by
  unfold hasArrow
  have hmem : '→' ∈ (a ++ " → " ++ b).data := by
    rw [String.data_append, String.data_append]
    simp [show (" → ").data = [' ', '→', ' '] from rfl]
  exact List.elem_eq_true_of_mem hmem

/-! ## Deduplication (claim C8) -/

theorem dropDupFirst_sublist : ∀ rows : List RawRow, (dropDupFirst rows).Sublist rows
  | [] => List.Sublist.refl []
  | r :: rs => by
    simp only [dropDupFirst]
    exact List.Sublist.cons₂ r ((List.filter_sublist _).trans (dropDupFirst_sublist rs))

theorem dropDupFirst_tags_nodup : ∀ rows : List RawRow, ((dropDupFirst rows).map tagOf).Nodup
  | [] => List.nodup_nil
  | r :: rs => by
    simp only [dropDupFirst, List.map_cons, List.nodup_cons]
    refine ⟨?_, ?_⟩
    · intro hmem
      rcases List.mem_map.mp hmem with ⟨x, hx, htag⟩
      have hfil := List.of_mem_filter hx
      rw [htag] at hfil
      simp at hfil
    · have hsub : (((dropDupFirst rs).filter (fun x => !(tagOf x == tagOf r))).map tagOf).Sublist
          ((dropDupFirst rs).map tagOf) := List.Sublist.map tagOf (List.filter_sublist _)
      exact hsub.nodup (dropDupFirst_tags_nodup rs)

theorem dropDupFirst_find? (t : String) :
    ∀ rows : List RawRow,
      (dropDupFirst rows).find? (fun r => tagOf r == t) = rows.find? (fun r => tagOf r == t)
  | [] => rfl
  | r :: rs => by
    simp only [dropDupFirst]
    by_cases h : tagOf r = t
    · rw [List.find?_cons_of_pos _ (by simp [h]), List.find?_cons_of_pos _ (by simp [h])]
    · rw [List.find?_cons_of_neg _ (by simp [h]), List.find?_cons_of_neg _ (by simp [h])]
      rw [find?_filter_of_imp _ _ ?imp]
      · exact dropDupFirst_find? t rs
      case imp =>
        intro x hx
        simp only [beq_iff_eq] at hx
        simp only [Bool.not_eq_eq_eq_not, Bool.not_true, beq_eq_false_iff_ne, ne_eq]
        exact fun he => h (he.symm.trans hx)

/-- C8: if multiple input rows share a Tag, only the first occurrence (in
input order) is retained for diffing: the retained rows are a subsequence
of the input, their tags are duplicate-free, and the table's row for any
tag `t` is exactly the first input row bearing `t` (its "Tag" cell removed
by `set_index`). This holds for any input table, hence for either side. -/
theorem dedup_keeps_first_occurrence (cols : List String) (rows : List RawRow) (t : String) :
    (tableTags (makeTable cols rows)).Nodup ∧
    (dropDupFirst rows).Sublist rows ∧
    lookupRow (makeTable cols rows) t =
      (rows.find? (fun r => tagOf r == t)).map (fun r => r.filter (fun p => !(p.1 == "Tag"))) := by
  refine ⟨?_, dropDupFirst_sublist rows, ?_⟩
  · have : tableTags (makeTable cols rows) = (dropDupFirst rows).map tagOf := by
      simp [tableTags, makeTable, List.map_map]
    rw [this]
    exact dropDupFirst_tags_nodup rows
  · simp only [lookupRow, makeTable, List.find?_map]
    have hcomp :
        ((fun p : String × RawRow => p.1 == t) ∘ fun r => (tagOf r, r.filter (fun p => !(p.1 == "Tag"))))
          = fun r => tagOf r == t := rfl
    rw [hcomp, dropDupFirst_find? t rows]
    cases rows.find? (fun r => tagOf r == t) <;> rfl

/-! ## Schema check (claim C6) -/

/-- C6: the pipeline yields `SchemaError` exactly when one of the inputs
lacks a "Tag" column; in that case it returns the bare error (no partial
diff result), and when both inputs have the column no error is raised. -/
theorem schemaError_iff_missing_tag (r0cols r1cols : List String)
    (r0rows r1rows : List RawRow) (colEnum tagEnum : List String) :
    runComparison r0cols r0rows r1cols r1rows colEnum tagEnum
        = Except.error SchemaError.missingTag
      ↔ ("Tag" ∉ r0cols ∨ "Tag" ∉ r1cols) := by
  unfold runComparison
  by_cases h : "Tag" ∉ r0cols ∨ "Tag" ∉ r1cols
  · rw [if_pos h]
    simp [h]
  · rw [if_neg h]
    simp [h]

/-! ## Column union (claim C1) -/

theorem colKey_lt_length {r0cols : List String} {c : String} (h : c ∈ r0cols) :
    colKey r0cols c < r0cols.length := by
  simp only [colKey]
  exact List.indexOf_lt_length.mpr h

theorem colKey_of_not_mem {r0cols : List String} {c : String} (h : c ∉ r0cols) :
    colKey r0cols c = r0cols.length := by
  simp only [colKey]
  exact List.indexOf_eq_length.mpr h

theorem colKey_get {r0cols : List String} {c : String} (h : c ∈ r0cols) :
    r0cols.get ⟨colKey r0cols c, colKey_lt_length h⟩ = c := by
  simp only [colKey]
  exact List.indexOf_get (List.indexOf_lt_length.mpr h)

theorem colKey_get_self (r0cols : List String) (h0 : r0cols.Nodup) (k : Nat)
    (hk : k < r0cols.length) : colKey r0cols (r0cols.get ⟨k, hk⟩) = k := by
  set c := r0cols.get ⟨k, hk⟩ with hc
  have hcmem : c ∈ r0cols := List.get_mem _ _ _
  have h2 : r0cols.get ⟨colKey r0cols c, colKey_lt_length hcmem⟩ = r0cols.get ⟨k, hk⟩ :=
    (colKey_get hcmem).trans hc
  have h3 := (List.Nodup.get_inj_iff h0).mp h2
  exact congrArg Fin.val h3

theorem filter_colKey_eq_of_lt (r0cols enum : List String) (h0 : r0cols.Nodup)
    (he : enum.Nodup) (hsub : ∀ c ∈ r0cols, c ∈ enum) (k : Nat) (hk : k < r0cols.length) :
    enum.filter (fun x => colKey r0cols x == k) = [r0cols.get ⟨k, hk⟩] := by
  set c := r0cols.get ⟨k, hk⟩ with hc
  have hcmem : c ∈ r0cols := List.get_mem _ _ _
  have hkey : colKey r0cols c = k := colKey_get_self r0cols h0 k hk
  have hpt : ∀ x ∈ enum, (colKey r0cols x == k) = (x == c) := by
    intro x _
    by_cases hxc : x = c
    · subst hxc
      simp [hkey]
    · have hne : colKey r0cols x ≠ k := by
        intro hek
        apply hxc
        by_cases hxm : x ∈ r0cols
        · have hgx : r0cols.get ⟨colKey r0cols x, colKey_lt_length hxm⟩ = x := colKey_get hxm
          rw [← hgx, hc]
          congr 1
          exact Fin.ext hek
        · have := colKey_of_not_mem hxm
          omega
      rw [show (colKey r0cols x == k) = false from by simp [hne],
        show (x == c) = false from by simp [hxc]]
  rw [List.filter_congr hpt, nodup_filter_beq enum c he (hsub c hcmem)]

theorem flatten_range_filters (r0cols enum : List String) (h0 : r0cols.Nodup)
    (he : enum.Nodup) (hsub : ∀ c ∈ r0cols, c ∈ enum) :
    ∀ m, m ≤ r0cols.length →
      ((List.range m).map (fun k => enum.filter (fun x => colKey r0cols x == k))).flatten
        = r0cols.take m
  | 0, _ => rfl
  | m + 1, hm => by
    have hm' : m < r0cols.length := hm
    rw [List.range_succ, List.map_append, List.flatten_append,
      flatten_range_filters r0cols enum h0 he hsub m (Nat.le_of_succ_le hm)]
    simp only [List.map_cons, List.map_nil, List.flatten_cons, List.flatten_nil,
      List.append_nil]
    rw [filter_colKey_eq_of_lt r0cols enum h0 he hsub m hm', List.take_succ]
    congr 1
    rw [List.getElem?_eq_getElem hm']
    simp [List.get_eq_getElem]

/-- C1 (amended): the column union puts R0's columns first, in their
original R0 order, followed by the remaining enumerated columns (those
not in R0) with no duplicates — but the suffix is in the **set-iteration
order** `enum`, not in R1's first-appearance order, so the overall order
is a function of R0's columns and the set enumeration, not of the two
input column lists alone. -/
theorem all_columns_characterization (r0cols enum : List String)
    (h0 : r0cols.Nodup) (he : enum.Nodup) (hsub : ∀ c ∈ r0cols, c ∈ enum) :
    all_columns r0cols enum = r0cols ++ enum.filter (fun c => !(r0cols.contains c)) ∧
    (all_columns r0cols enum).Nodup := by
  have hmain :
      all_columns r0cols enum = r0cols ++ enum.filter (fun c => !(r0cols.contains c)) := by
    unfold all_columns sortByKey
    rw [List.range_succ, List.map_append, List.flatten_append,
      flatten_range_filters r0cols enum h0 he hsub r0cols.length (le_refl _),
      List.take_length]
    simp only [List.map_cons, List.map_nil, List.flatten_cons, List.flatten_nil,
      List.append_nil]
    congr 1
    apply List.filter_congr
    intro x _
    by_cases hxm : x ∈ r0cols
    · have h1 : colKey r0cols x < r0cols.length := colKey_lt_length hxm
      have h2 : r0cols.elem x = true := List.elem_eq_true_of_mem hxm
      rw [show (colKey r0cols x == r0cols.length) = false from by
          simp only [beq_eq_false_iff_ne]; omega,
        show r0cols.contains x = true from h2]
      rfl
    · have h1 : colKey r0cols x = r0cols.length := colKey_of_not_mem hxm
      have h2 : r0cols.contains x = false := by
        show r0cols.elem x = false
        cases helem : r0cols.elem x with
        | true => exact absurd (List.elem_iff.mp helem) hxm
        | false => rfl
      rw [show (colKey r0cols x == r0cols.length) = true from by simp [h1], h2]
      rfl
  refine ⟨hmain, ?_⟩
  rw [hmain]
  refine List.Nodup.append h0 (he.filter _) ?_
  intro a ha hfa
  have hnc := List.of_mem_filter hfa
  have hca : r0cols.contains a = false := by
    cases hc : r0cols.contains a with
    | true => rw [hc] at hnc; simp at hnc
    | false => rfl
  have helem : r0cols.elem a = true := List.elem_eq_true_of_mem ha
  rw [show r0cols.contains a = r0cols.elem a from rfl, helem] at hca
  cases hca

/-- C1 fails as stated: with R0 data columns `["Q"]` and R1 data columns
`["Q","B","C"]`, the enumeration `["Q","C","B"]` is a legitimate
iteration order of the Python set `{"Q","B","C"}` (duplicate-free, same
elements, as the permutation below certifies), yet the produced order is
`["Q","C","B"]`, not R0's columns followed by the R1-only columns in R1
first-appearance order (`["Q","B","C"]`); and a second legitimate
enumeration of the same set yields a different result, so the order is
not a deterministic function of the two input column lists alone. -/
theorem all_columns_order_counterexample :
    (["Q", "C", "B"] : List String).Nodup ∧
    List.Perm ["Q", "C", "B"] ["Q", "B", "C"] ∧
    all_columns ["Q"] ["Q", "C", "B"] ≠ ["Q", "B", "C"] ∧
    all_columns ["Q"] ["Q", "C", "B"] ≠ all_columns ["Q"] ["Q", "B", "C"] := by
  decide

/-- Witness: the amended characterization evaluated at the inputs of the
counterexample. -/
theorem all_columns_characterization_witness :
    all_columns ["Q"] ["Q", "C", "B"]
      = ["Q"] ++ (["Q", "C", "B"].filter (fun c => !((["Q"] : List String).contains c))) :=
  (all_columns_characterization ["Q"] ["Q", "C", "B"] (by decide) (by decide) (by decide)).1

/-! ## The both-present branch (claims C3, C5, C10) -/

theorem compareBoth_cells (cols : List String) (tag : String) (r0row r1row : RawRow) :
    (compareBoth cols tag r0row r1row).cells
      = cols.map (fun c => (c, renderCell r0row r1row c)) := rfl

theorem compareBoth_summary (cols : List String) (tag : String) (r0row r1row : RawRow) :
    (compareBoth cols tag r0row r1row).changeSummary
      = joinSep " | " (summaryEntries cols r0row r1row) := rfl

theorem compareBoth_type (cols : List String) (tag : String) (r0row r1row : RawRow) :
    (compareBoth cols tag r0row r1row).changeType
      = if cols.any (fun c => pyStrip (getVal r0row c) != pyStrip (getVal r1row c))
        then "Modified" else "No Change" := rfl

/-- C3: for a tag present in both tables and a column of the ColumnSet,
values are compared after whitespace stripping; differing values render
as "v0 → v1" and contribute "col: v0 → v1" to the summary list (joined
with " | " into the ChangeSummary); trim-equal values render as R1's
value; and the row is Modified exactly when some column differed. -/
theorem compare_renders_and_summarizes (cols : List String) (tag : String)
    (r0row r1row : RawRow) (c : String) (hc : c ∈ cols) :
    (pyStrip (getVal r0row c) ≠ pyStrip (getVal r1row c) →
      getVal (compareBoth cols tag r0row r1row).cells c
          = getVal r0row c ++ " → " ++ getVal r1row c ∧
      (c ++ ": " ++ getVal r0row c ++ " → " ++ getVal r1row c)
          ∈ summaryEntries cols r0row r1row) ∧
    (pyStrip (getVal r0row c) = pyStrip (getVal r1row c) →
      getVal (compareBoth cols tag r0row r1row).cells c = getVal r1row c) ∧
    (compareBoth cols tag r0row r1row).changeSummary
        = joinSep " | " (summaryEntries cols r0row r1row) ∧
    ((compareBoth cols tag r0row r1row).changeType = "Modified"
      ↔ ∃ c' ∈ cols, pyStrip (getVal r0row c') ≠ pyStrip (getVal r1row c')) := by
  refine ⟨?_, ?_, compareBoth_summary cols tag r0row r1row, ?_⟩
  · intro hdiff
    constructor
    · rw [compareBoth_cells, getVal_map_pairs _ cols c hc]
      simp only [renderCell]
      rw [if_pos (bne_iff_ne.mpr hdiff)]
    · refine List.mem_filterMap.mpr ⟨c, hc, ?_⟩
      simp only [summaryEntry]
      rw [if_pos (bne_iff_ne.mpr hdiff)]
  · intro heq
    rw [compareBoth_cells, getVal_map_pairs _ cols c hc]
    simp only [renderCell]
    rw [if_neg (by simp [heq])]
  · rw [compareBoth_type]
    cases hch : cols.any (fun c => pyStrip (getVal r0row c) != pyStrip (getVal r1row c)) with
    | true =>
      rw [if_pos rfl]
      constructor
      · intro _
        rcases List.any_eq_true.mp hch with ⟨x, hx, hbx⟩
        exact ⟨x, hx, bne_iff_ne.mp hbx⟩
      · intro _
        rfl
    | false =>
      rw [if_neg (by simp)]
      constructor
      · intro h
        exact absurd h (by decide)
      · intro h
        rcases h with ⟨x, hx, hdx⟩
        have := List.any_eq_false.mp hch x hx
        exact absurd (bne_iff_ne.mpr hdx) (by simp [this])

/-- C5: for a tag present in both tables and a column that R1's table
lacks, R1's value is taken as the empty string; when R0's stripped value
is non-empty the rendered cell is "v0 → " (empty right-hand side) and the
row is classified Modified. -/
theorem missing_column_renders_arrow (cols : List String) (tag : String)
    (r0row r1row : RawRow) (c : String) (hc : c ∈ cols)
    (habs : r1row.find? (fun p => p.1 == c) = none)
    (hne : pyStrip (getVal r0row c) ≠ "") :
    getVal (compareBoth cols tag r0row r1row).cells c = getVal r0row c ++ " → " ∧
    (compareBoth cols tag r0row r1row).changeType = "Modified" := by
  have hv1 : getVal r1row c = "" := by
    unfold getVal
    rw [habs]
  have hdiff : pyStrip (getVal r0row c) ≠ pyStrip (getVal r1row c) := by
    rw [hv1]
    exact hne
  constructor
  · rw [compareBoth_cells, getVal_map_pairs _ cols c hc]
    simp only [renderCell]
    rw [if_pos (bne_iff_ne.mpr hdiff), hv1, String.append_empty]
  · rw [compareBoth_type,
      show cols.any (fun c => pyStrip (getVal r0row c) != pyStrip (getVal r1row c)) = true from
        List.any_eq_true.mpr ⟨c, hc, bne_iff_ne.mpr hdiff⟩]
    rfl

theorem summaryEntries_pos (cols : List String) (r0row r1row : RawRow) :
    ∀ e ∈ summaryEntries cols r0row r1row, 0 < e.length := by
  intro e he
  rcases List.mem_filterMap.mp he with ⟨c, _, hsome⟩
  simp only [summaryEntry] at hsome
  by_cases hd : pyStrip (getVal r0row c) ≠ pyStrip (getVal r1row c)
  · rw [if_pos (bne_iff_ne.mpr hd)] at hsome
    have he2 := Option.some.inj hsome
    rw [← he2]
    have h2 : (": " : String).length = 2 := rfl
    simp only [String.length_append]
    omega
  · rw [if_neg (by simp [not_not.mp (by simpa using hd)])] at hsome
    cases hsome

theorem compareBoth_modified_iff_summary (cols : List String) (tag : String)
    (r0row r1row : RawRow) :
    ((compareBoth cols tag r0row r1row).changeType = "Modified"
      ↔ (compareBoth cols tag r0row r1row).changeSummary ≠ "") := by
  rw [compareBoth_type, compareBoth_summary]
  cases hch : cols.any (fun c => pyStrip (getVal r0row c) != pyStrip (getVal r1row c)) with
  | true =>
    rw [if_pos rfl]
    constructor
    · intro _
      rcases List.any_eq_true.mp hch with ⟨x, hx, hbx⟩
      have hmem : (x ++ ": " ++ getVal r0row x ++ " → " ++ getVal r1row x)
          ∈ summaryEntries cols r0row r1row := by
        refine List.mem_filterMap.mpr ⟨x, hx, ?_⟩
        simp only [summaryEntry]
        rw [if_pos hbx]
      exact joinSep_ne_empty " | " _ (List.ne_nil_of_mem hmem)
        (summaryEntries_pos cols r0row r1row)
    · intro _
      rfl
  | false =>
    rw [if_neg (by simp)]
    have hnil : summaryEntries cols r0row r1row = [] := by
      rw [summaryEntries, List.filterMap_eq_nil_iff]
      intro x hx
      simp only [summaryEntry]
      rw [if_neg (by simp [List.any_eq_false.mp hch x hx])]
    rw [hnil]
    constructor
    · intro h
      exact absurd h (by decide)
    · intro h
      exact absurd rfl h

/-- C10: for a tag present in both tables, the produced row is Modified
exactly when its ChangeSummary is non-empty. -/
theorem modified_iff_summary_nonempty (r0 r1 : Tbl) (cols : List String) (tag : String)
    (h0 : lookupRow r0 tag ≠ none) (h1 : lookupRow r1 tag ≠ none) :
    ((diffRow r0 r1 cols tag).changeType = "Modified"
      ↔ (diffRow r0 r1 cols tag).changeSummary ≠ "") := by
  have hd : diffRow r0 r1 cols tag
      = compareBoth cols tag ((lookupRow r0 tag).getD []) ((lookupRow r1 tag).getD []) := by
    unfold diffRow
    rw [if_neg h0, if_neg h1]
  rw [hd]
  exact compareBoth_modified_iff_summary cols tag _ _

/-- Witness: C3's arrow rendering evaluated on the spec's B row. -/
theorem compare_renders_witness :
    getVal (compareBoth ["Qty"] "B" [("Qty", "10")] [("Qty", "12")]).cells "Qty" = "10 → 12" :=
  ((compare_renders_and_summarizes ["Qty"] "B" [("Qty", "10")] [("Qty", "12")] "Qty"
    (by decide)).1 (by decide)).1

/-- Witness: C5's missing-column rendering on a concrete row. -/
theorem missing_column_witness :
    getVal (compareBoth ["Notes"] "X" [("Notes", "x")] []).cells "Notes" = "x → " :=
  (missing_column_renders_arrow ["Notes"] "X" [("Notes", "x")] [] "Notes"
    (by decide) rfl (by decide)).1

/-- Witness: C10 on a concrete modified row. -/
theorem modified_iff_summary_witness :
    ((diffRow ⟨["Qty"], [("B", [("Qty", "10")])]⟩ ⟨["Qty"], [("B", [("Qty", "12")])]⟩
        ["Qty"] "B").changeType = "Modified"
      ↔ (diffRow ⟨["Qty"], [("B", [("Qty", "10")])]⟩ ⟨["Qty"], [("B", [("Qty", "12")])]⟩
        ["Qty"] "B").changeSummary ≠ "") :=
  modified_iff_summary_nonempty ⟨["Qty"], [("B", [("Qty", "10")])]⟩
    ⟨["Qty"], [("B", [("Qty", "12")])]⟩ ["Qty"] "B" (by decide) (by decide)

/-! ## Round-trip between ChangeType and rendered arrows (claim C7) -/

/-- No cell value stored in the table contains the arrow marker (the
marker is the tool's own rendering device, not expected in input data). -/
def arrowFree (t : Tbl) : Prop :=
  ∀ pr ∈ t.rows, ∀ p ∈ pr.2, hasArrow p.2 = false

instance (t : Tbl) : Decidable (arrowFree t) := by
  unfold arrowFree
  infer_instance

theorem getVal_arrowFree (row : RawRow) (hrow : ∀ p ∈ row, hasArrow p.2 = false)
    (c : String) : hasArrow (getVal row c) = false := by
  unfold getVal
  cases hf : row.find? (fun p => p.1 == c) with
  | none => rfl
  | some p => exact hrow p (List.mem_of_find?_eq_some hf)

theorem lookup_row_arrowFree (t : Tbl) (ht : arrowFree t) (tag : String) :
    ∀ p ∈ (lookupRow t tag).getD [], hasArrow p.2 = false := by
  cases hl : lookupRow t tag with
  | none =>
    intro p hp
    cases hp
  | some row =>
    intro p hp
    unfold lookupRow at hl
    cases hf : t.rows.find? (fun pr => pr.1 == tag) with
    | none =>
      rw [hf] at hl
      cases hl
    | some pr =>
      rw [hf] at hl
      have hrow : pr.2 = row := Option.some.inj hl
      exact ht pr (List.mem_of_find?_eq_some hf) p (hrow ▸ hp)

/-- C7: re-deriving the ChangeType from the rendered non-summary columns
by scanning for the arrow marker agrees with the stored ChangeType,
provided the input values are themselves arrow-free: a Modified row has
some rendered cell containing "→", and an Added, Removed or Unchanged
row has none. -/
theorem changeType_roundtrip (r0 r1 : Tbl) (cols : List String) (tag : String)
    (h0 : arrowFree r0) (h1 : arrowFree r1) :
    ((diffRow r0 r1 cols tag).changeType = "Modified" →
      ∃ p ∈ (diffRow r0 r1 cols tag).cells, hasArrow p.2 = true) ∧
    ((diffRow r0 r1 cols tag).changeType ≠ "Modified" →
      ∀ p ∈ (diffRow r0 r1 cols tag).cells, hasArrow p.2 = false) := by
  unfold diffRow
  by_cases hl0 : lookupRow r0 tag = none
  · rw [if_pos hl0]
    constructor
    · intro h
      exact absurd h (show ¬("Added in R1" : String) = "Modified" by decide)
    · intro _ p hp
      rcases List.mem_map.mp hp with ⟨c, _, hpc⟩
      rw [← hpc]
      exact getVal_arrowFree _ (lookup_row_arrowFree r1 h1 tag) c
  · rw [if_neg hl0]
    by_cases hl1 : lookupRow r1 tag = none
    · rw [if_pos hl1]
      constructor
      · intro h
        exact absurd h (show ¬("Removed in R1" : String) = "Modified" by decide)
      · intro _ p hp
        rcases List.mem_map.mp hp with ⟨c, _, hpc⟩
        rw [← hpc]
        exact getVal_arrowFree _ (lookup_row_arrowFree r0 h0 tag) c
    · rw [if_neg hl1]
      have h1' : ∀ p ∈ (lookupRow r1 tag).getD [], hasArrow p.2 = false :=
        lookup_row_arrowFree r1 h1 tag
      constructor
      · intro hmod
        have hch : cols.any (fun c => pyStrip (getVal ((lookupRow r0 tag).getD []) c)
            != pyStrip (getVal ((lookupRow r1 tag).getD []) c)) = true := by
          cases hany : cols.any (fun c => pyStrip (getVal ((lookupRow r0 tag).getD []) c)
              != pyStrip (getVal ((lookupRow r1 tag).getD []) c)) with
          | true => rfl
          | false =>
            rw [compareBoth_type, hany, if_neg (by simp)] at hmod
            exact absurd hmod (by decide)
        rcases List.any_eq_true.mp hch with ⟨c, hc, hbc⟩
        refine ⟨(c, renderCell ((lookupRow r0 tag).getD []) ((lookupRow r1 tag).getD []) c),
          ?_, ?_⟩
        · rw [compareBoth_cells]
          exact List.mem_map_of_mem _ hc
        · simp only [renderCell]
          rw [if_pos hbc]
          exact hasArrow_arrowCell _ _
      · intro hnm p hp
        have hch : cols.any (fun c => pyStrip (getVal ((lookupRow r0 tag).getD []) c)
            != pyStrip (getVal ((lookupRow r1 tag).getD []) c)) = false := by
          cases hany : cols.any (fun c => pyStrip (getVal ((lookupRow r0 tag).getD []) c)
              != pyStrip (getVal ((lookupRow r1 tag).getD []) c)) with
          | false => rfl
          | true =>
            rw [compareBoth_type, hany, if_pos rfl] at hnm
            exact absurd rfl hnm
        rw [compareBoth_cells] at hp
        rcases List.mem_map.mp hp with ⟨c, hc, hpc⟩
        rw [← hpc]
        simp only [renderCell]
        rw [if_neg (by simp [List.any_eq_false.mp hch c hc])]
        exact getVal_arrowFree _ h1' c

/-- Witness: C7 on a concrete modified row with arrow-free inputs. -/
theorem changeType_roundtrip_witness :
    ∃ p ∈ (diffRow ⟨["Qty"], [("B", [("Qty", "10")])]⟩ ⟨["Qty"], [("B", [("Qty", "12")])]⟩
        ["Qty"] "B").cells, hasArrow p.2 = true :=
  (changeType_roundtrip ⟨["Qty"], [("B", [("Qty", "10")])]⟩
    ⟨["Qty"], [("B", [("Qty", "12")])]⟩ ["Qty"] "B" (by decide) (by decide)).1 (by decide)

/-! ## Key union: uniqueness and ordering (claim C4) -/

theorem diffRow_tag (r0 r1 : Tbl) (cols : List String) (tag : String) :
    (diffRow r0 r1 cols tag).tag = tag := by
  unfold diffRow
  by_cases h0 : lookupRow r0 tag = none
  · rw [if_pos h0]
  · rw [if_neg h0]
    by_cases h1 : lookupRow r1 tag = none
    · rw [if_pos h1]
    · rw [if_neg h1]
      rfl

/-- C4: when the tag enumeration is a duplicate-free enumeration of the
union of the two tables' tag sets, the diff result carries every tag of
the union exactly once, in ascending (code-point lexicographic) order. -/
theorem diff_rows_unique_sorted (r0 r1 : Tbl) (cols : List String) (tagEnum : List String)
    (he : tagEnum.Nodup)
    (hm : ∀ t, t ∈ tagEnum ↔ (t ∈ tableTags r0 ∨ t ∈ tableTags r1)) :
    List.Sorted strLe ((diffRows r0 r1 cols (all_tags tagEnum)).map DiffRow.tag) ∧
    ∀ t, (t ∈ tableTags r0 ∨ t ∈ tableTags r1) →
      ((diffRows r0 r1 cols (all_tags tagEnum)).map DiffRow.tag).count t = 1 := by
  have hmap : (diffRows r0 r1 cols (all_tags tagEnum)).map DiffRow.tag = all_tags tagEnum := by
    unfold diffRows
    rw [List.map_map]
    have hid : (DiffRow.tag ∘ diffRow r0 r1 cols) = id :=
      funext fun t => diffRow_tag r0 r1 cols t
    rw [hid, List.map_id]
  rw [hmap]
  have hperm : (all_tags tagEnum).Perm tagEnum := List.perm_insertionSort strLe tagEnum
  refine ⟨List.sorted_insertionSort strLe tagEnum, ?_⟩
  intro t ht
  have htm : t ∈ all_tags tagEnum := hperm.mem_iff.mpr ((hm t).mpr ht)
  exact List.count_eq_one_of_mem (hperm.nodup_iff.mpr he) htm

/-- Witness: C4 on concrete single-row tables with tag union {A, B}. -/
theorem diff_rows_unique_sorted_witness :
    List.Sorted strLe ((diffRows ⟨["Qty"], [("A", [("Qty", "1")])]⟩
        ⟨["Qty"], [("B", [("Qty", "2")])]⟩ ["Qty"] (all_tags ["B", "A"])).map DiffRow.tag) ∧
    ∀ t, (t ∈ tableTags ⟨["Qty"], [("A", [("Qty", "1")])]⟩
        ∨ t ∈ tableTags ⟨["Qty"], [("B", [("Qty", "2")])]⟩) →
      (((diffRows ⟨["Qty"], [("A", [("Qty", "1")])]⟩ ⟨["Qty"], [("B", [("Qty", "2")])]⟩
        ["Qty"] (all_tags ["B", "A"])).map DiffRow.tag).count t) = 1 :=
  diff_rows_unique_sorted ⟨["Qty"], [("A", [("Qty", "1")])]⟩ ⟨["Qty"], [("B", [("Qty", "2")])]⟩
    ["Qty"] ["B", "A"] (by decide)
    (by
      intro t
      simp [tableTags]
      tauto)

/-! ## The worked example (claim C2) -/

theorem all_tags_eq_of_perm (tagEnum l : List String) (hp : tagEnum.Perm l)
    (hs : List.Sorted strLe l) : all_tags tagEnum = l :=
  List.eq_of_perm_of_sorted ((List.perm_insertionSort strLe tagEnum).trans hp)
    (List.sorted_insertionSort strLe tagEnum) hs

/-- C2 (amended): on the spec's example inputs the diff yields exactly
three rows A, B, C where A is Removed with Qty "5", B is Modified with
Qty "10 → 12" and summary "Qty: 10 → 12" (R0's value for B is 10, so the
left side of the arrow is 10, not 5), and C is Added with Qty "1" — for
every legitimate iteration order of the two sets. -/
theorem example_run (colEnum tagEnum : List String)
    (hcp : colEnum.Perm ["Qty"]) (htp : tagEnum.Perm ["A", "B", "C"]) :
    runComparison ["Tag", "Qty"] [[("Tag", "A"), ("Qty", "5")], [("Tag", "B"), ("Qty", "10")]]
        ["Tag", "Qty"] [[("Tag", "B"), ("Qty", "12")], [("Tag", "C"), ("Qty", "1")]]
        colEnum tagEnum
      = Except.ok
        [⟨"A", "Removed in R1", [("Qty", "5")], ""⟩,
         ⟨"B", "Modified", [("Qty", "10 → 12")], "Qty: 10 → 12"⟩,
         ⟨"C", "Added in R1", [("Qty", "1")], ""⟩] := by
  have hc : colEnum = ["Qty"] := List.perm_singleton.mp hcp
  have ht : all_tags tagEnum = ["A", "B", "C"] :=
    all_tags_eq_of_perm tagEnum _ htp (by decide)
  subst hc
  unfold runComparison
  rw [if_neg (by decide), ht]
  rfl

/-- C2 fails as stated: with the spec's example inputs, the produced B
row renders Qty as "10 → 12" and summary "Qty: 10 → 12" (since R0's Qty
for B is 10), so the claimed output with Qty "5 → 12" is not produced. -/
theorem example_run_counterexample :
    runComparison ["Tag", "Qty"] [[("Tag", "A"), ("Qty", "5")], [("Tag", "B"), ("Qty", "10")]]
        ["Tag", "Qty"] [[("Tag", "B"), ("Qty", "12")], [("Tag", "C"), ("Qty", "1")]]
        ["Qty"] ["A", "B", "C"]
      ≠ Except.ok
        [⟨"A", "Removed in R1", [("Qty", "5")], ""⟩,
         ⟨"B", "Modified", [("Qty", "5 → 12")], "Qty: 5 → 12"⟩,
         ⟨"C", "Added in R1", [("Qty", "1")], ""⟩] := by
  intro h
  exact absurd (Except.ok.inj h) (by decide)

/-- Witness: C2's amended run with other set-iteration orders. -/
theorem example_run_witness :
    runComparison ["Tag", "Qty"] [[("Tag", "A"), ("Qty", "5")], [("Tag", "B"), ("Qty", "10")]]
        ["Tag", "Qty"] [[("Tag", "B"), ("Qty", "12")], [("Tag", "C"), ("Qty", "1")]]
        ["Qty"] ["B", "C", "A"]
      = Except.ok
        [⟨"A", "Removed in R1", [("Qty", "5")], ""⟩,
         ⟨"B", "Modified", [("Qty", "10 → 12")], "Qty: 10 → 12"⟩,
         ⟨"C", "Added in R1", [("Qty", "1")], ""⟩] :=
  example_run ["Qty"] ["B", "C", "A"] (by decide) (by decide)

/-! ## Export layout and highlighting (claim C9) -/

theorem rowCellValue_tag (r : DiffRow) : rowCellValue r "Tag" = r.tag := rfl

theorem rowCellValue_type (r : DiffRow) : rowCellValue r "Change_Type" = r.changeType := rfl

theorem rowCellValue_summary (r : DiffRow) :
    rowCellValue r "Change_Summary" = r.changeSummary := rfl

theorem rowCellValue_data (r : DiffRow) (c : String) (h1 : c ≠ "Tag")
    (h2 : c ≠ "Change_Type") (h3 : c ≠ "Change_Summary") :
    rowCellValue r c = getVal r.cells c := by
  unfold rowCellValue
  rw [if_neg (by simp [h1]), if_neg (by simp [h2]), if_neg (by simp [h3])]

/-- C9: the exported sheet is one header row — Tag, Change_Type, the
ColumnSet columns in order, Change_Summary — followed by one data row
per DiffRow in DiffResult order, each data row carrying the row's tag,
change type, per-column rendered values and change summary; and a cell
is highlighted exactly when its rendered string contains the arrow
marker. (The hypotheses rule out data columns that shadow the three
reserved output columns, in which case the dict-update in the script
would overwrite fields.) -/
theorem export_layout (cols : List String) (rows : List DiffRow)
    (h1 : "Tag" ∉ cols) (h2 : "Change_Type" ∉ cols) (h3 : "Change_Summary" ∉ cols) :
    ((exportSheet cols rows).head?).map (List.map Cell.value)
        = some (["Tag", "Change_Type"] ++ cols ++ ["Change_Summary"]) ∧
    (exportSheet cols rows).length = rows.length + 1 ∧
    (exportSheet cols rows).tail = rows.map (exportRow cols) ∧
    (∀ r ∈ rows, (exportRow cols r).map Cell.value
        = r.tag :: r.changeType :: (cols.map (fun c => getVal r.cells c) ++ [r.changeSummary])) ∧
    (∀ row ∈ exportSheet cols rows, ∀ cell ∈ row,
      (cell.highlighted = true ↔ hasArrow cell.value = true)) := by
  refine ⟨?_, ?_, rfl, ?_, ?_⟩
  · show some (((finalColumns cols).map mkCell).map Cell.value) = _
    rw [List.map_map]
    have hid : (Cell.value ∘ mkCell) = id := funext fun v => rfl
    rw [hid, List.map_id]
    rfl
  · simp [exportSheet]
  · intro r _
    unfold exportRow
    rw [List.map_map]
    have hval : (Cell.value ∘ fun c => mkCell (rowCellValue r c)) = rowCellValue r :=
      funext fun c => rfl
    rw [hval]
    unfold finalColumns
    rw [List.map_append, List.map_append]
    rw [show (["Tag", "Change_Type"].map (rowCellValue r)) = [r.tag, r.changeType] from rfl,
      show (["Change_Summary"].map (rowCellValue r)) = [r.changeSummary] from rfl]
    rw [List.map_congr_left (fun c hc => rowCellValue_data r c
      (fun he => h1 (he ▸ hc)) (fun he => h2 (he ▸ hc)) (fun he => h3 (he ▸ hc)))]
    rfl
  · intro row hrow cell hcell
    rcases List.mem_cons.mp hrow with hhead | hdata
    · subst hhead
      rcases List.mem_map.mp hcell with ⟨v, _, hv⟩
      rw [← hv]
      exact Iff.rfl
    · rcases List.mem_map.mp hdata with ⟨r, _, hr⟩
      rw [← hr] at hcell
      rcases List.mem_map.mp hcell with ⟨c, _, hc⟩
      rw [← hc]
      exact Iff.rfl

/-- Witness: C9's header layout on a concrete one-column sheet. -/
theorem export_layout_witness :
    ((exportSheet ["Qty"] [⟨"B", "Modified", [("Qty", "10 → 12")], "Qty: 10 → 12"⟩]).head?).map
        (List.map Cell.value)
      = some (["Tag", "Change_Type"] ++ ["Qty"] ++ ["Change_Summary"]) :=
  (export_layout ["Qty"] [⟨"B", "Modified", [("Qty", "10 → 12")], "Qty: 10 → 12"⟩]
    (by decide) (by decide) (by decide)).1
